import Mathlib

/-!
Verification of the neocognos-tui core against its source.

Strings are modelled as lists of characters (`Str`); byte offsets into a
Rust `String` are modelled through the UTF-8 byte length of each character
(`utf8Len`, `byteLen`).  Machine integers (`usize`) are modelled as `Nat`
with an explicit modulus where wrap-around matters.  The `f64` cost and
percentage arithmetic of the source is modelled exactly over `ℚ`
respectively over `Nat` division; no verified claim depends on the
rounding of those displayed values.
-/

/-- Model of a Rust string: its sequence of characters. -/
abbrev Str := List Char

/-- Rust `char::is_whitespace`: the Unicode White_Space property. -/
def isRustWhitespace (c : Char) : Bool :=
  let n := c.toNat
  decide ((0x09 ≤ n ∧ n ≤ 0x0D) ∨ n = 0x20 ∨ n = 0x85 ∨ n = 0xA0 ∨ n = 0x1680 ∨
    (0x2000 ≤ n ∧ n ≤ 0x200A) ∨ n = 0x2028 ∨ n = 0x2029 ∨ n = 0x202F ∨ n = 0x205F ∨
    n = 0x3000)

/-- Rust `str::trim_start`. -/
def rustTrimStart (s : Str) : Str := s.dropWhile isRustWhitespace

/-- Rust `str::trim_end`. -/
def rustTrimEnd (s : Str) : Str := (s.reverse.dropWhile isRustWhitespace).reverse

/-- Rust `str::trim`. -/
def rustTrim (s : Str) : Str := rustTrimEnd (rustTrimStart s)

/-- The part of `s` before its first space: `parts[0]` of `s.splitn(2, ' ')`. -/
def firstWord (s : Str) : Str := s.takeWhile (fun c => c != ' ')

/-- The part of `s` after its first space, if any: `parts.get(1)` of
`s.splitn(2, ' ')`. -/
def restAfterSpace (s : Str) : Option Str :=
  match s.dropWhile (fun c => c != ' ') with
  | [] => none
  | _ :: t => some t

/-- `CommandResult` from src/commands.rs.  The `Cost` variant does not
appear in the enum declared in commands.rs, but the exhaustive match in
agent_thread.rs (the `CommandResult::Cost` arm) and the help text listing
`/cost` require it; it is included here so that the agent loop of
agent_thread.rs can be embedded.  `process_command`, which is faithful to
commands.rs, never returns it. -/
inductive CommandResult where
  | NotACommand
  | Continue
  | Quit
  | SwitchModel (model : Str)
  | Clear
  | ShellCommand (command : Str)
  | Compact
  | Cost
deriving DecidableEq, Repr

/-- `process_command` from src/commands.rs lines 25-68.  The `println!`
side effects of the source are display-only and are not modelled. -/
def process_command (input : Str) : CommandResult :=
  let trimmed := rustTrim input
  if trimmed.head? = some '!' then
    -- `trimmed[1..].trim()`: the byte slice after the one-byte char `!`
    let command := rustTrim (trimmed.drop 1)
    if command = [] then .Continue else .ShellCommand command
  else if trimmed.head? ≠ some '/' then .NotACommand
  else
    let cmd := firstWord trimmed
    let arg := match restAfterSpace trimmed with
      | none => ([] : Str)
      | some r => rustTrim r
    if cmd = ("/quit".toList) ∨ cmd = ("/exit".toList) ∨ cmd = ("/q".toList) then
      .Quit
    else if cmd = ("/clear".toList) then
      .Clear
    else if cmd = ("/model".toList) then
      (if arg = [] then .Continue else .SwitchModel arg)
    else if cmd = ("/help".toList) ∨ cmd = ("/?".toList) then
      .Continue
    else if cmd = ("/compact".toList) then
      .Compact
    else
      .Continue

/-- `SessionStats` from src/session.rs lines 110-115 (`Default` gives all
zero). -/
structure SessionStats where
  total_prompt_tokens : Nat := 0
  total_completion_tokens : Nat := 0
  total_turns : Nat := 0
deriving DecidableEq, Repr

/-- `SessionStats::total_tokens` from src/session.rs lines 118-120. -/
def SessionStats.total_tokens (s : SessionStats) : Nat :=
  s.total_prompt_tokens + s.total_completion_tokens

/-- `SessionStats::estimated_cost` from src/session.rs lines 123-127,
with the `f64` arithmetic modelled exactly over `ℚ`. -/
def SessionStats.estimated_cost (s : SessionStats) : ℚ :=
  (s.total_prompt_tokens : ℚ) * 3 / 1000000 +
    (s.total_completion_tokens : ℚ) * 15 / 1000000

/-- The statistics update performed by a successful turn, from
`Session::run_turn`, src/session.rs lines 444-445:
`total_turns += result.turns; total_prompt_tokens += result.total_tokens`. -/
def runTurnStatsUpdate (s : SessionStats) (turns tokens : Nat) : SessionStats :=
  { s with total_turns := s.total_turns + turns,
           total_prompt_tokens := s.total_prompt_tokens + tokens }

/-- Rust `str::split_once(':')` on the model string. -/
def splitOnceColon (s : Str) : Option (Str × Str) :=
  if s.contains ':' then
    some (s.takeWhile (fun c => c != ':'), (s.dropWhile (fun c => c != ':')).drop 1)
  else none

/-- The provider/model resolution block of `Session::from_config`,
src/session.rs lines 220-251.  `provider` is `cfg.provider` and `model`
is `cfg.model.or(manifest_model)`. -/
def resolveProviderModel (provider model : Option Str) : Str × Str :=
  match provider, model with
  | some p, some m =>
    let m2 := match splitOnceColon m with
      | some (_pfx, rest) => if (p ++ [':']).isPrefixOf m then rest else m
      | none => m
    (p, m2)
  | none, some m =>
    (match splitOnceColon m with
     | some (pfx, rest) =>
       if pfx = ("anthropic".toList) ∨ pfx = ("ollama".toList) ∨
          pfx = ("claude-cli".toList) then
         (pfx, rest)
       else
         (("ollama".toList), m)
     | none => (("ollama".toList), m))
  | some p, none =>
    (p, if p = ("anthropic".toList) ∨ p = ("claude-cli".toList) then
          ("sonnet".toList)
        else
          ("llama3.2:3b".toList))
  | none, none => (("ollama".toList), ("llama3.2:3b".toList))

/-- Rust `char::len_utf8`: the number of UTF-8 bytes of a character. -/
def utf8Len (c : Char) : Nat :=
  if c.toNat < 0x80 then 1
  else if c.toNat < 0x800 then 2
  else if c.toNat < 0x10000 then 3
  else 4

/-- The byte length of a string (`String::len` in Rust). -/
def byteLen : Str → Nat
  | [] => 0
  | c :: cs => utf8Len c + byteLen cs

/-- The characters of `s` occupying the first `p` bytes: models the Rust
byte slice `s[..p]`.  Exact at character-boundary offsets `p` (elsewhere
the Rust slice panics). -/
def takeBytes : Str → Nat → Str
  | [], _ => []
  | c :: cs, p => if p = 0 then [] else c :: takeBytes cs (p - utf8Len c)

/-- The characters of `s` after the first `p` bytes: models the Rust byte
slice `s[p..]`.  Exact at character-boundary offsets `p`. -/
def dropBytes : Str → Nat → Str
  | [], _ => []
  | c :: cs, p => if p = 0 then c :: cs else dropBytes cs (p - utf8Len c)

/-- `p` is a UTF-8 character-boundary byte offset of `s`, with
`0 ≤ p ≤ byteLen s` (Rust `str::is_char_boundary`). -/
def isBoundary : Str → Nat → Bool
  | [], p => p = 0
  | c :: cs, p => if p = 0 then true
                  else if p < utf8Len c then false
                  else isBoundary cs (p - utf8Len c)

/-- `ChatMessage` from src/app.rs lines 7-15. -/
inductive ChatMessage where
  | user (text : Str)
  | assistant (text : Str)
  | narration (text : Str)
  | toolCall (nm args_short : Str)
  | toolResult (nm : Str) (success : Bool) (duration_ms : Nat)
  | error (text : Str)
  | system (text : Str)
deriving DecidableEq, Repr

/-- `ToolStatus` from src/app.rs lines 19-22. -/
structure ToolStatus where
  nm : Str
  success : Bool
deriving DecidableEq, Repr

/-- `LlmCallEntry` from src/app.rs lines 26-31. -/
structure LlmCallEntry where
  model : Str
  prompt_tokens : Nat
  completion_tokens : Nat
  duration_ms : Nat
deriving DecidableEq, Repr

/-- `TraceEntry` from src/app.rs lines 35-42. -/
inductive TraceEntry where
  | stageStart (id kind : Str)
  | stageEnd (id : Str) (duration_ms : Nat) (skipped : Bool)
  | llmCall (model : Str) (ctx_tokens out_tokens duration_ms : Nat)
  | toolCall (nm args : Str)
  | toolResult (nm : Str) (success : Bool) (duration_ms : Nat)
  | narration (text : Str)
deriving DecidableEq, Repr

/-- `StatusInfo` from src/app.rs lines 46-53; `cost` is an `f64` in the
source, modelled over `ℚ`. -/
structure StatusInfo where
  model : Str := []
  agent_name : Str := []
  workflow : Str := []
  total_tokens : Nat := 0
  total_turns : Nat := 0
  cost : ℚ := 0
deriving DecidableEq, Repr

/-- `PanelFocus` from src/app.rs lines 71-74. -/
inductive PanelFocus where
  | chat
  | trace
deriving DecidableEq, Repr

/-- `usize::MAX`, the sentinel scroll offset meaning follow-the-tail. -/
def usizeMax : Nat := 2 ^ 64 - 1

/-- `App` from src/app.rs lines 77-94.  `thinking_since : Option<Instant>`
carries an opaque time value, modelled as `Option Unit`. -/
structure App where
  messages : List ChatMessage := []
  input : Str := []
  cursor_pos : Nat := 0
  scroll_offset : Nat := 0
  status : StatusInfo := {}
  recent_files : List Str := []
  recent_tools : List ToolStatus := []
  llm_calls : List LlmCallEntry := []
  trace_log : List TraceEntry := []
  trace_scroll : Option Nat := none
  focus : PanelFocus := .chat
  agent_busy : Bool := false
  should_quit : Bool := false
  input_history : List Str := []
  history_index : Option Nat := none
  thinking_since : Option Unit := none
deriving DecidableEq, Repr

/-- `App::new` from src/app.rs lines 97-121. -/
def App.new (agent_name model workflow : Str) : App :=
  { status := { model := model, agent_name := agent_name, workflow := workflow } }

/-- `App::submit_input` from src/app.rs lines 123-133.  Returns the
submitted text (if any) together with the updated state. -/
def App.submit_input (a : App) : Option Str × App :=
  let text := rustTrim a.input
  if text = [] then (none, a)
  else (some text,
    { a with input_history := a.input_history ++ [text],
             history_index := none,
             input := [],
             cursor_pos := 0 })

/-- `App::history_up` from src/app.rs lines 135-147.  The source indexes
`input_history[idx]` with `idx < len`; `getD` models that total lookup. -/
def App.history_up (a : App) : App :=
  if a.input_history = [] then a
  else
    match a.history_index with
    | none =>
      let idx := a.input_history.length - 1
      { a with history_index := some idx,
               input := a.input_history.getD idx [],
               cursor_pos := byteLen (a.input_history.getD idx []) }
    | some 0 => a
    | some (i + 1) =>
      { a with history_index := some i,
               input := a.input_history.getD i [],
               cursor_pos := byteLen (a.input_history.getD i []) }

/-- `App::history_down` from src/app.rs lines 149-164. -/
def App.history_down (a : App) : App :=
  match a.history_index with
  | none => a
  | some i =>
    if i + 1 ≥ a.input_history.length then
      { a with history_index := none, input := [], cursor_pos := 0 }
    else
      { a with history_index := some (i + 1),
               input := a.input_history.getD (i + 1) [],
               cursor_pos := byteLen (a.input_history.getD (i + 1) []) }

/-- `App::insert_char` from src/app.rs lines 166-169: insert `c` at the
cursor byte offset, advance the cursor by `c.len_utf8()`. -/
def App.insert_char (a : App) (c : Char) : App :=
  { a with input := takeBytes a.input a.cursor_pos ++ c :: dropBytes a.input a.cursor_pos,
           cursor_pos := a.cursor_pos + utf8Len c }

/-- `App::delete_char_before` from src/app.rs lines 171-182: remove the
character whose trailing byte is `cursor_pos - 1` and move the cursor to
its start (`char_indices().last()` over `input[..cursor_pos]`). -/
def App.delete_char_before (a : App) : App :=
  if a.cursor_pos > 0 then
    let pre := takeBytes a.input a.cursor_pos
    { a with input := pre.dropLast ++ dropBytes a.input a.cursor_pos,
             cursor_pos := byteLen pre.dropLast }
  else a

/-- `App::delete_char_after` from src/app.rs lines 184-188: remove the
character starting at the cursor byte offset. -/
def App.delete_char_after (a : App) : App :=
  if a.cursor_pos < byteLen a.input then
    { a with input := takeBytes a.input a.cursor_pos ++ (dropBytes a.input a.cursor_pos).tail }
  else a

/-- `App::move_cursor_left` from src/app.rs lines 190-198. -/
def App.move_cursor_left (a : App) : App :=
  if a.cursor_pos > 0 then
    { a with cursor_pos := byteLen (takeBytes a.input a.cursor_pos).dropLast }
  else a

/-- `App::move_cursor_right` from src/app.rs lines 200-208:
`input[cursor..].char_indices().nth(1)` is the byte width of the first
character of the suffix when the suffix has at least two characters;
otherwise the cursor goes to the end of the input. -/
def App.move_cursor_right (a : App) : App :=
  if a.cursor_pos < byteLen a.input then
    match dropBytes a.input a.cursor_pos with
    | [] => a
    | c :: rest =>
      { a with cursor_pos := if rest = [] then byteLen a.input
                             else a.cursor_pos + utf8Len c }
  else a

/-- `App::move_cursor_home` from src/app.rs lines 210-212. -/
def App.move_cursor_home (a : App) : App := { a with cursor_pos := 0 }

/-- `App::move_cursor_end` from src/app.rs lines 214-216. -/
def App.move_cursor_end (a : App) : App := { a with cursor_pos := byteLen a.input }

/-- `App::add_message` from src/app.rs lines 218-222: push and force the
scroll offset to the follow sentinel `usize::MAX`. -/
def App.add_message (a : App) (msg : ChatMessage) : App :=
  { a with messages := a.messages ++ [msg], scroll_offset := usizeMax }

/-- `App::add_recent_file` from src/app.rs lines 224-231: de-duplicate by
moving to the front, then truncate at capacity 10. -/
def App.add_recent_file (a : App) (path : Str) : App :=
  let l := path :: a.recent_files.filter (fun f => f ≠ path)
  { a with recent_files := if l.length > 10 then l.take 10 else l }

/-- `App::add_recent_tool` from src/app.rs lines 233-238: front insert,
truncate at capacity 8. -/
def App.add_recent_tool (a : App) (nm : Str) (success : Bool) : App :=
  let l := ToolStatus.mk nm success :: a.recent_tools
  { a with recent_tools := if l.length > 8 then l.take 8 else l }

/-- `App::clear_messages` from src/app.rs lines 240-243. -/
def App.clear_messages (a : App) : App :=
  { a with messages := [], scroll_offset := 0 }

/-- `AgentEvent` from src/agent_thread.rs lines 10-23; the `f64` cost is
modelled over `ℚ`. -/
inductive AgentEvent where
  | narration (text : Str)
  | toolCallStarted (nm args : Str)
  | toolCallCompleted (nm : Str) (success : Bool) (duration_ms : Nat)
  | llmCall (model : Str) (prompt_tokens completion_tokens duration_ms : Nat)
  | stageStarted (stage_id stage_kind : Str)
  | stageCompleted (stage_id : Str) (duration_ms : Nat) (skipped : Bool)
  | response (text : Str)
  | tokenUpdate (total turns : Nat) (cost : ℚ)
  | error (text : Str)
  | systemMessage (text : Str)
  | done
  | quit
deriving DecidableEq, Repr

/-- Modelled from the spec: the telemetry a turn forwards to the UI.
`Session::run_turn_with_events`, called by agent_loop, is not present in
the source tree (src/session.rs only has the pre-channel `run_turn`); per
sections 4.2 and 6 of the spec the engine pushes narration, tool-call,
model-call and stage telemetry plus the final response during a turn, and
none of the sentinel events.  -/
inductive TelemetryEvent where
  | narration (text : Str)
  | toolCallStarted (nm args : Str)
  | toolCallCompleted (nm : Str) (success : Bool) (duration_ms : Nat)
  | llmCall (model : Str) (prompt_tokens completion_tokens duration_ms : Nat)
  | stageStarted (stage_id stage_kind : Str)
  | stageCompleted (stage_id : Str) (duration_ms : Nat) (skipped : Bool)
  | response (text : Str)
deriving DecidableEq, Repr

/-- The `AgentEvent` a forwarded telemetry item becomes on the channel. -/
def toAgentEvent : TelemetryEvent → AgentEvent
  | .narration t => .narration t
  | .toolCallStarted n a => .toolCallStarted n a
  | .toolCallCompleted n s d => .toolCallCompleted n s d
  | .llmCall m p c d => .llmCall m p c d
  | .stageStarted i k => .stageStarted i k
  | .stageCompleted i d s => .stageCompleted i d s
  | .response t => .response t

/-- Modelled from the spec (section 6, `run_turn` contract): the outcome
the engine reports for one turn — forwarded telemetry plus the turn and
token deltas, with the deltas accumulated exactly as in
`Session::run_turn` (src/session.rs lines 444-445). -/
structure TurnResult where
  events : List TelemetryEvent
  turns : Nat
  total_tokens : Nat
deriving DecidableEq, Repr

/-- A turn either succeeds or fails with an error message. -/
inductive TurnOutcome where
  | ok (r : TurnResult)
  | err (msg : Str)
deriving DecidableEq, Repr

/-- Outcome of the subordinate shell process spawned for a `!` command. -/
inductive ShellOutcome where
  | ok (out errOut : Str)
  | err (msg : Str)
deriving DecidableEq, Repr

/-- The fixed context budget of agent_loop (src/agent_thread.rs line 147). -/
def contextBudget : Nat := 200000

/-- The auto-compaction notice of src/agent_thread.rs lines 152-154.  The
percentage is `(usage as f64 / budget as f64 * 100.0) as u32`, modelled by
the exact `Nat` division `usage * 100 / budget`. -/
def autoCompactMsg (pct : Nat) : Str :=
  ("⚡ Auto-compacted: context was ".toList) ++ (Nat.repr pct).toList ++ ("% full".toList)

/-- The model-switch notice of src/agent_thread.rs lines 79-81. -/
def switchModelMsg (model : Str) : Str :=
  ("⚠ Model switching not yet implemented. Restart with --model ".toList) ++ model

/-- The help text of src/agent_thread.rs lines 64-67. -/
def helpText : Str :=
  ("Commands: /quit /clear /model <m> /compact /cost /help\nShell: !<command>\nKeys: Ctrl+C quit | Ctrl+L clear | PgUp/PgDn scroll | Up/Down history".toList)

/-- The `/cost` breakdown of src/agent_thread.rs lines 92-112.  The source
formats the cost and context percentage as `f64`; only the numeric inputs
matter to the claims, so the text is modelled as the concatenation of the
stat fields in order. -/
def costReportMsg (stats : SessionStats) : Str :=
  ("Session cost breakdown: ".toList) ++
    (Nat.repr stats.total_turns).toList ++ (" ".toList) ++
    (Nat.repr stats.total_prompt_tokens).toList ++ (" ".toList) ++
    (Nat.repr stats.total_completion_tokens).toList

/-- What one iteration of `agent_loop` produces for one received input. -/
structure StepResult where
  /-- The events sent on the outbound channel, in order. -/
  events : List AgentEvent
  /-- Whether the loop breaks (only the Quit arm breaks). -/
  quit : Bool
  /-- The session statistics after the iteration. -/
  stats : SessionStats
  /-- Whether the auto-compaction branch invoked history compaction. -/
  autoCompacted : Bool
deriving DecidableEq, Repr

/-- One iteration of `agent_loop` (src/agent_thread.rs lines 47-162) on a
received input string.  The engine turn, the compaction progress strings
and the shell process outcome are environment parameters; the turn-result
accumulation follows `Session::run_turn` (the channel variant
`run_turn_with_events` is absent from the source tree and is modelled from
the spec, sections 4.2 and 6). -/
def stepInput (stats : SessionStats) (raw : Str) (turn : TurnOutcome)
    (compactMsgs : List Str) (shell : ShellOutcome) : StepResult :=
  let input := rustTrim raw
  if input = [] then ⟨[.done], false, stats, false⟩
  else
    match process_command input with
    | .NotACommand =>
      match turn with
      | .ok r =>
        let stats2 := runTurnStatsUpdate stats r.turns r.total_tokens
        let base := r.events.map toAgentEvent ++
          [.tokenUpdate stats2.total_tokens stats2.total_turns stats2.estimated_cost]
        let usage := stats2.total_prompt_tokens
        if usage > contextBudget * 80 / 100 ∧ stats2.total_turns ≥ 3 then
          ⟨base ++ [.systemMessage (autoCompactMsg (usage * 100 / contextBudget)), .done],
           false, stats2, true⟩
        else
          ⟨base ++ [.done], false, stats2, false⟩
      | .err e => ⟨[.error e, .done], false, stats, false⟩
    | .Quit => ⟨[.quit], true, stats, false⟩
    | .Continue =>
      if ("/help".toList).isPrefixOf (rustTrim input) ∨ rustTrim input = ("/?".toList) then
        ⟨[.systemMessage helpText, .done], false, stats, false⟩
      else
        ⟨[.done], false, stats, false⟩
    | .Clear => ⟨[.systemMessage ("__clear__".toList), .done], false, stats, false⟩
    | .SwitchModel m => ⟨[.systemMessage (switchModelMsg m), .done], false, stats, false⟩
    | .Compact =>
      ⟨compactMsgs.map (fun m => .systemMessage m) ++ [.done], false, stats, false⟩
    | .Cost => ⟨[.systemMessage (costReportMsg stats), .done], false, stats, false⟩
    | .ShellCommand _ =>
      match shell with
      | .ok out errOut =>
        let combined := if errOut = [] then out else out ++ errOut
        ⟨[.systemMessage combined, .done], false, stats, false⟩
      | .err e => ⟨[.error (("Shell error: ".toList) ++ e), .done], false, stats, false⟩

/-- The sentinel events that close a turn. -/
def isSentinel : AgentEvent → Bool
  | .done => true
  | .quit => true
  | _ => false

/-- Whether agent_loop classifies this received line as Quit (nonempty
after trimming and `process_command` returns `Quit`). -/
def classifiedQuit (raw : Str) : Bool :=
  decide (rustTrim raw ≠ []) && decide (process_command (rustTrim raw) = .Quit)

/-- Rust `str::trim_matches(pred)`: strip matching characters from both
ends. -/
def trimMatchesBy (pred : Char → Bool) (s : Str) : Str :=
  ((s.dropWhile pred).reverse.dropWhile pred).reverse

/-- The character set stripped from tokens in `extract_file_path`
(src/main.rs line 283): double quote, single quote, braces, comma. -/
def isPathTrimChar (c : Char) : Bool :=
  c = Char.ofNat 0x22 ∨ c = Char.ofNat 0x27 ∨ c = Char.ofNat 0x7B ∨
    c = Char.ofNat 0x7D ∨ c = ','

/-- Rust `str::split_whitespace`. -/
def rustSplitWhitespace : Str → List Str
  | [] => []
  | c :: cs =>
    if isRustWhitespace c then rustSplitWhitespace cs
    else
      (c :: cs.takeWhile (fun x => !isRustWhitespace x)) ::
        rustSplitWhitespace (cs.dropWhile (fun x => !isRustWhitespace x))
termination_by l => l.length
decreasing_by
  · simp only [List.length_cons]; omega
  · have hd : ∀ l : Str, (l.dropWhile (fun x => !isRustWhitespace x)).length ≤ l.length := by
      intro l
      induction l with
      | nil => simp
      | cons c cs ih =>
        by_cases hc : (!isRustWhitespace c) = true <;>
          simp [List.dropWhile_cons, hc] <;> omega
    have := hd cs
    simp only [List.length_cons]; omega

/-- The token scan loop of `extract_file_path` (src/main.rs lines 282-287). -/
def firstPathToken : List Str → Option Str
  | [] => none
  | t :: ts =>
    let clean := trimMatchesBy isPathTrimChar t
    if clean.contains '/' || clean.contains '.' then some clean
    else firstPathToken ts

/-- `extract_file_path` from src/main.rs lines 276-291. -/
def extract_file_path (msg : Option ChatMessage) : Option Str :=
  match msg with
  | some (.toolCall _ args_short) =>
    let args := rustTrim args_short
    if args.contains '/' || args.contains '.' then
      firstPathToken (rustSplitWhitespace args)
    else none
  | _ => none

/-- The key modifiers distinguished by `handle_key_event`
(src/main.rs lines 209-272): `CONTROL`, `NONE`, `SHIFT`, and anything
else. -/
inductive KeyMods where
  | control
  | noMods
  | shift
  | otherMods
deriving DecidableEq, Repr

/-- The key codes consumed by `handle_key_event`. -/
inductive KeyCode where
  | char (c : Char)
  | enter
  | backspace
  | del
  | left
  | right
  | up
  | down
  | home
  | endKey
  | pageUp
  | pageDown
  | otherKey
deriving DecidableEq, Repr

/-- `handle_key_event` from src/main.rs lines 208-273.  Returns the
updated state and the string sent on the inbound channel, if any.  The
arms are in source order; a control chord other than c/d/l falls through
to the wildcard arm. -/
def handleKey (a : App) (mods : KeyMods) (code : KeyCode) : App × Option Str :=
  match mods, code with
  | .control, .char c =>
    if c = 'c' then
      -- Ctrl+C: quit if idle, ignore if busy
      if a.agent_busy then (a, none) else ({ a with should_quit := true }, none)
    else if c = 'd' then ({ a with should_quit := true }, none)
    else if c = 'l' then (a.clear_messages, none)
    else (a, none)
  | _, .enter =>
    if a.agent_busy then (a, none)
    else
      match a.submit_input with
      | (some text, a2) =>
        let a3 := a2.add_message (.user text)
        ({ a3 with agent_busy := true, thinking_since := some () }, some text)
      | (none, a2) => (a2, none)
  | _, .backspace => (a.delete_char_before, none)
  | _, .del => (a.delete_char_after, none)
  | _, .left => (a.move_cursor_left, none)
  | _, .right => (a.move_cursor_right, none)
  | _, .up => (a.history_up, none)
  | _, .down => (a.history_down, none)
  | _, .home => (a.move_cursor_home, none)
  | _, .endKey => (a.move_cursor_end, none)
  | _, .pageUp =>
    let s1 := if a.scroll_offset = usizeMax then a.messages.length - 10
              else a.scroll_offset
    ({ a with scroll_offset := s1 - 10 }, none)
  | _, .pageDown =>
    ({ a with scroll_offset := if a.scroll_offset = usizeMax then usizeMax
                               else (a.scroll_offset + 10) % (usizeMax + 1) }, none)
  | .noMods, .char c => (a.insert_char c, none)
  | .shift, .char c => (a.insert_char c, none)
  | _, _ => (a, none)

/-- The event-drain match of the render loop, src/main.rs lines 121-181:
how one received `AgentEvent` mutates the `App`.  The source match has no
arms for `StageStarted`/`StageCompleted` (they appear in the event enum
but are not consumed there); they are modelled as leaving the state
unchanged. -/
def applyEvent (a : App) : AgentEvent → App
  | .narration text => a.add_message (.narration text)
  | .toolCallStarted nm args =>
    let a2 := a.add_message (.toolCall nm args)
    if nm = ("read_file".toList) ∨ nm = ("write_file".toList) then
      match extract_file_path a2.messages.getLast? with
      | some path => a2.add_recent_file path
      | none => a2
    else a2
  | .llmCall model p c d =>
    { a with llm_calls := a.llm_calls ++ [⟨model, p, c, d⟩] }
  | .toolCallCompleted nm success duration_ms =>
    (a.add_message (.toolResult nm success duration_ms)).add_recent_tool nm success
  | .response text => a.add_message (.assistant text)
  | .tokenUpdate total turns cost =>
    { a with status := { a.status with total_tokens := total, total_turns := turns,
                                       cost := cost } }
  | .error text => a.add_message (.error text)
  | .systemMessage text =>
    if text = ("__clear__".toList) then a.clear_messages
    else a.add_message (.system text)
  | .done => { a with agent_busy := false, thinking_since := none }
  | .quit => { a with should_quit := true }
  | .stageStarted _ _ => a
  | .stageCompleted _ _ _ => a

/-- The editing and history operations on `App` that claim C7 ranges
over. -/
inductive EditOp where
  | insertChar (c : Char)
  | deleteBefore
  | deleteAfter
  | moveLeft
  | moveRight
  | moveHome
  | moveEnd
  | submit
  | histUp
  | histDown
deriving DecidableEq, Repr

/-- Dispatch one operation to its `App` method (`submit` discards the
returned text). -/
def applyEdit (a : App) : EditOp → App
  | .insertChar c => a.insert_char c
  | .deleteBefore => a.delete_char_before
  | .deleteAfter => a.delete_char_after
  | .moveLeft => a.move_cursor_left
  | .moveRight => a.move_cursor_right
  | .moveHome => a.move_cursor_home
  | .moveEnd => a.move_cursor_end
  | .submit => (a.submit_input).2
  | .histUp => a.history_up
  | .histDown => a.history_down

/-- A sequence of operations applied left to right. -/
def applyEdits (ops : List EditOp) (a : App) : App := ops.foldl applyEdit a

/-- The cursor invariant: `cursor_pos` sits on a UTF-8 character boundary
of `input`, hence `0 ≤ cursor_pos ≤ byteLen input`. -/
def CursorOk (a : App) : Prop := isBoundary a.input a.cursor_pos = true

theorem dropWhile_append_of_all (p : Char → Bool) (w l : Str)
    (h : ∀ c ∈ w, p c = true) : (w ++ l).dropWhile p = l.dropWhile p := by
  induction w with
  | nil => rfl
  | cons c cs ih =>
    rw [List.cons_append, List.dropWhile_cons, if_pos (h c (by simp))]
    exact ih (fun x hx => h x (by simp [hx]))

theorem takeWhile_append_of_all (p : Char → Bool) (w l : Str)
    (h : ∀ c ∈ w, p c = true) : (w ++ l).takeWhile p = w ++ l.takeWhile p := by
  induction w with
  | nil => rfl
  | cons c cs ih =>
    rw [List.cons_append, List.takeWhile_cons, if_pos (h c (by simp)), ih
      (fun x hx => h x (by simp [hx])), List.cons_append]

theorem dropWhile_cons_of_neg (p : Char → Bool) (c : Char) (l : Str)
    (h : p c = false) : (c :: l).dropWhile p = c :: l := by
  rw [List.dropWhile_cons, if_neg (by simp [h])]

theorem rustTrim_ws_bang_ws (ws1 ws2 : Str)
    (h1 : ∀ c ∈ ws1, isRustWhitespace c = true)
    (h2 : ∀ c ∈ ws2, isRustWhitespace c = true) :
    rustTrim (ws1 ++ '!' :: ws2) = ['!'] := by
  have hbang : isRustWhitespace '!' = false := by decide
  unfold rustTrim rustTrimStart rustTrimEnd
  rw [dropWhile_append_of_all _ _ _ h1, dropWhile_cons_of_neg _ _ _ hbang]
  rw [List.reverse_cons, dropWhile_append_of_all _ _ _
    (fun c hc => h2 c (List.mem_reverse.mp hc)),
    dropWhile_cons_of_neg _ _ _ hbang]
  rfl

theorem firstWord_head {l w : Str} (h : firstWord l = w) (hw : w ≠ []) :
    l.head? = w.head? := by
  cases l with
  | nil => exfalso; apply hw; rw [← h]; rfl
  | cons c cs =>
    rw [firstWord, List.takeWhile_cons] at h
    by_cases hc : (c != ' ') = true
    · rw [if_pos hc] at h
      cases w with
      | nil => exact absurd h (by simp)
      | cons b bs =>
        obtain ⟨rfl, -⟩ := List.cons.inj h
        rfl
    · rw [if_neg hc] at h
      exact absurd h.symm hw

/-- C1: the spec table sends `/cost` to the `Cost` outcome, but
`process_command` in commands.rs has no `/cost` arm (and its
`CommandResult` enum has no `Cost` variant, although agent_thread.rs
matches on `CommandResult::Cost`); `/cost` falls into the
unknown-command arm and yields `Continue`. -/
theorem cost_command_hits_unknown_arm :
    process_command ("/cost".toList) = CommandResult.Continue := by decide

/-- C5, counterexample: the input `/quitx` starts with the prefix
`/quit` but is classified `Continue` (unknown command), not `Quit`. -/
theorem quit_prefix_counterexample :
    decide (process_command ("/quitx".toList) = CommandResult.Quit) = false := by rfl

theorem append_ne_nil_left (w extra : Str) (hw : w ≠ []) : w ++ extra ≠ [] := by
  intro he
  exact hw (List.append_eq_nil.mp he).1

theorem append_ne_self_right (w extra : Str) (hextra : extra ≠ []) : w ++ extra ≠ w := by
  intro he
  have hl := congrArg List.length he
  rw [List.length_append] at hl
  have : extra.length = 0 := by omega
  exact hextra (List.length_eq_zero.mp this)

theorem append_ne_of_idx (w extra lit : Str) (n : Nat) (h1 : n < w.length)
    (h2 : w[n]? ≠ lit[n]?) : w ++ extra ≠ lit := by
  intro he
  apply h2
  rw [← he, List.getElem?_append, if_pos h1]

theorem append_ne_of_longer (w extra lit : Str) (h : lit.length < w.length) :
    w ++ extra ≠ lit := by
  intro he
  have hl := congrArg List.length he
  rw [List.length_append] at hl
  omega

/-- An input whose trimmed form starts with `/` but whose first word
matches no row of the command table lands in the unknown-command arm. -/
theorem process_command_unrecognized (input : Str)
    (hh : (rustTrim input).head? = some '/')
    (h1 : ¬(firstWord (rustTrim input) = ("/quit".toList) ∨
        firstWord (rustTrim input) = ("/exit".toList) ∨
        firstWord (rustTrim input) = ("/q".toList)))
    (h2 : firstWord (rustTrim input) ≠ ("/clear".toList))
    (h3 : firstWord (rustTrim input) ≠ ("/model".toList))
    (h4 : ¬(firstWord (rustTrim input) = ("/help".toList) ∨
        firstWord (rustTrim input) = ("/?".toList)))
    (h5 : firstWord (rustTrim input) ≠ ("/compact".toList)) :
    process_command input = CommandResult.Continue := by
  simp only [process_command]
  rw [if_neg (by rw [hh]; decide), if_neg (by rw [hh]; simp),
    if_neg h1, if_neg h2, if_neg h3, if_neg h4, if_neg h5]

/-- C5, amended: a non-empty input whose trimmed form starts with neither
`/` nor `!` is `NotACommand`; an input is `Quit` if and only if the first
space-delimited word of its trimmed form is the exact command word
`/quit`, `/exit` or `/q`; and appending extra characters to `/quit` or
`/exit` — or to `/q`, unless the result is the distinct exact command
word `/quit` — makes the first word fall to the unknown-command arm and
yields `Continue`, not `Quit`. -/
theorem classification_amended (input : Str) :
    (input ≠ [] → (rustTrim input).head? ≠ some '/' →
      (rustTrim input).head? ≠ some '!' →
      process_command input = CommandResult.NotACommand)
    ∧ (process_command input = CommandResult.Quit ↔
        (firstWord (rustTrim input) = ("/quit".toList) ∨
         firstWord (rustTrim input) = ("/exit".toList) ∨
         firstWord (rustTrim input) = ("/q".toList)))
    ∧ (∀ extra : Str, extra ≠ [] →
        firstWord (rustTrim input) = ("/quit".toList) ++ extra →
        process_command input = CommandResult.Continue)
    ∧ (∀ extra : Str, extra ≠ [] →
        firstWord (rustTrim input) = ("/exit".toList) ++ extra →
        process_command input = CommandResult.Continue)
    ∧ (∀ extra : Str, extra ≠ [] →
        ("/q".toList) ++ extra ≠ ("/quit".toList) →
        firstWord (rustTrim input) = ("/q".toList) ++ extra →
        process_command input = CommandResult.Continue) := by
  refine ⟨?_, ⟨?_, ?_⟩, ?_, ?_, ?_⟩
  · intro _ hslash hbang
    simp only [process_command]
    rw [if_neg hbang, if_pos hslash]
  · intro hq
    simp only [process_command] at hq
    by_cases hb : (rustTrim input).head? = some '!'
    · rw [if_pos hb] at hq
      by_cases hc : rustTrim ((rustTrim input).drop 1) = []
      · rw [if_pos hc] at hq; cases hq
      · rw [if_neg hc] at hq; cases hq
    · rw [if_neg hb] at hq
      by_cases hs : (rustTrim input).head? ≠ some '/'
      · rw [if_pos hs] at hq; cases hq
      · rw [if_neg hs] at hq
        by_cases hquit : firstWord (rustTrim input) = ("/quit".toList) ∨
            firstWord (rustTrim input) = ("/exit".toList) ∨
            firstWord (rustTrim input) = ("/q".toList)
        · exact hquit
        · rw [if_neg hquit] at hq
          split_ifs at hq <;> cases hq
  · intro h
    have hh : (rustTrim input).head? = some '/' := by
      rcases h with h | h | h <;> rw [firstWord_head h (by decide)] <;> rfl
    simp only [process_command]
    rw [if_neg (by rw [hh]; decide), if_neg (by rw [hh]; simp), if_pos h]
  · intro extra hextra hfw
    have hh : (rustTrim input).head? = some '/' := by
      rw [firstWord_head hfw (append_ne_nil_left _ _ (by decide))]; rfl
    refine process_command_unrecognized input hh ?_ ?_ ?_ ?_ ?_ <;> rw [hfw]
    · rintro (h | h | h)
      · exact append_ne_self_right _ _ hextra h
      · exact append_ne_of_idx _ _ _ 1 (by decide) (by decide) h
      · exact append_ne_of_longer _ _ _ (by decide) h
    · exact append_ne_of_idx _ _ _ 1 (by decide) (by decide)
    · exact append_ne_of_idx _ _ _ 1 (by decide) (by decide)
    · rintro (h | h)
      · exact append_ne_of_idx _ _ _ 1 (by decide) (by decide) h
      · exact append_ne_of_idx _ _ _ 1 (by decide) (by decide) h
    · exact append_ne_of_idx _ _ _ 1 (by decide) (by decide)
  · intro extra hextra hfw
    have hh : (rustTrim input).head? = some '/' := by
      rw [firstWord_head hfw (append_ne_nil_left _ _ (by decide))]; rfl
    refine process_command_unrecognized input hh ?_ ?_ ?_ ?_ ?_ <;> rw [hfw]
    · rintro (h | h | h)
      · exact append_ne_of_idx _ _ _ 1 (by decide) (by decide) h
      · exact append_ne_self_right _ _ hextra h
      · exact append_ne_of_idx _ _ _ 1 (by decide) (by decide) h
    · exact append_ne_of_idx _ _ _ 1 (by decide) (by decide)
    · exact append_ne_of_idx _ _ _ 1 (by decide) (by decide)
    · rintro (h | h)
      · exact append_ne_of_idx _ _ _ 1 (by decide) (by decide) h
      · exact append_ne_of_idx _ _ _ 1 (by decide) (by decide) h
    · exact append_ne_of_idx _ _ _ 1 (by decide) (by decide)
  · intro extra hextra hnq hfw
    have hh : (rustTrim input).head? = some '/' := by
      rw [firstWord_head hfw (append_ne_nil_left _ _ (by decide))]; rfl
    refine process_command_unrecognized input hh ?_ ?_ ?_ ?_ ?_ <;> rw [hfw]
    · rintro (h | h | h)
      · exact hnq h
      · exact append_ne_of_idx _ _ _ 1 (by decide) (by decide) h
      · exact append_ne_self_right _ _ hextra h
    · exact append_ne_of_idx _ _ _ 1 (by decide) (by decide)
    · exact append_ne_of_idx _ _ _ 1 (by decide) (by decide)
    · rintro (h | h)
      · exact append_ne_of_idx _ _ _ 1 (by decide) (by decide) h
      · exact append_ne_of_idx _ _ _ 1 (by decide) (by decide) h
    · exact append_ne_of_idx _ _ _ 1 (by decide) (by decide)

theorem classification_amended_witness :
    process_command ("  hello world".toList) = CommandResult.NotACommand
    ∧ process_command ("/q now".toList) = CommandResult.Quit
    ∧ process_command ("/quitx".toList) = CommandResult.Continue
    ∧ process_command ("/exitfoo".toList) = CommandResult.Continue
    ∧ process_command ("/qq".toList) = CommandResult.Continue :=
  ⟨(classification_amended ("  hello world".toList)).1 (by decide) (by decide) (by decide),
   (classification_amended ("/q now".toList)).2.1.mpr (by decide),
   (classification_amended ("/quitx".toList)).2.2.1 ("x".toList) (by decide) (by decide),
   (classification_amended ("/exitfoo".toList)).2.2.2.1 ("foo".toList) (by decide) (by decide),
   (classification_amended ("/qq".toList)).2.2.2.2 ("q".toList) (by decide) (by decide)
     (by decide)⟩

/-- C8: an input whose trimmed form is `!` followed only by whitespace
(including a bare `!`) classifies as `Continue`, and whenever
`process_command` produces `ShellCommand text` the text is non-empty, so
the shell layer is never invoked with an empty command string. -/
theorem bang_never_empty_shell :
    (∀ ws1 ws2 : Str, (∀ c ∈ ws1, isRustWhitespace c = true) →
      (∀ c ∈ ws2, isRustWhitespace c = true) →
      process_command (ws1 ++ '!' :: ws2) = CommandResult.Continue)
    ∧ (∀ input t : Str, process_command input = CommandResult.ShellCommand t →
      0 < t.length) := by
  constructor
  · intro ws1 ws2 h1 h2
    simp only [process_command, rustTrim_ws_bang_ws ws1 ws2 h1 h2]
    rfl
  · intro input t hsh
    simp only [process_command] at hsh
    by_cases hb : (rustTrim input).head? = some '!'
    · rw [if_pos hb] at hsh
      by_cases hc : rustTrim ((rustTrim input).drop 1) = []
      · rw [if_pos hc] at hsh; cases hsh
      · rw [if_neg hc] at hsh
        injection hsh with h
        rw [← h]
        exact List.length_pos.mpr hc
    · rw [if_neg hb] at hsh
      by_cases hs : (rustTrim input).head? ≠ some '/'
      · rw [if_pos hs] at hsh; cases hsh
      · rw [if_neg hs] at hsh
        split_ifs at hsh

theorem bang_never_empty_shell_witness :
    process_command ((" ".toList) ++ '!' :: (" ".toList)) = CommandResult.Continue
    ∧ 0 < ("ls".toList).length :=
  ⟨bang_never_empty_shell.1 (" ".toList) (" ".toList) (by decide) (by decide),
   bang_never_empty_shell.2 ("!ls".toList) ("ls".toList) (by decide)⟩

theorem foldl_completion_tokens (deltas : List (Nat × Nat)) (s : SessionStats) :
    (deltas.foldl (fun acc d => runTurnStatsUpdate acc d.1 d.2) s).total_completion_tokens
      = s.total_completion_tokens := by
  induction deltas generalizing s with
  | nil => rfl
  | cons d ds ih => rw [List.foldl_cons, ih]; rfl

/-- C9: a successful turn adds the reported token total to
`total_prompt_tokens` and the turn delta to `total_turns` while leaving
`total_completion_tokens` unchanged; starting from the default stats it
therefore stays `0` over any session, and the estimated cost degenerates
to the input-token term `total_prompt_tokens * 3 / 1000000` dollars (the
`$15` per million output-token term is always zero). -/
theorem completion_tokens_stay_zero :
    (∀ (s : SessionStats) (turns tokens : Nat),
      (runTurnStatsUpdate s turns tokens).total_completion_tokens
          = s.total_completion_tokens
      ∧ (runTurnStatsUpdate s turns tokens).total_prompt_tokens
          = s.total_prompt_tokens + tokens
      ∧ (runTurnStatsUpdate s turns tokens).total_turns = s.total_turns + turns)
    ∧ (∀ deltas : List (Nat × Nat),
      (deltas.foldl (fun acc d => runTurnStatsUpdate acc d.1 d.2)
          ({} : SessionStats)).total_completion_tokens = 0
      ∧ (deltas.foldl (fun acc d => runTurnStatsUpdate acc d.1 d.2)
          ({} : SessionStats)).estimated_cost
        = ((deltas.foldl (fun acc d => runTurnStatsUpdate acc d.1 d.2)
            ({} : SessionStats)).total_prompt_tokens : ℚ) * 3 / 1000000) := by
  refine ⟨fun s turns tokens => ⟨rfl, rfl, rfl⟩, fun deltas => ⟨?_, ?_⟩⟩
  · exact foldl_completion_tokens deltas {}
  · rw [SessionStats.estimated_cost, foldl_completion_tokens deltas {}]
    norm_num

/-- C10: the render loop treats a `SystemMessage` whose text is exactly
`__clear__` as the clear sentinel — whatever its origin, it clears all
messages and resets the scroll offset instead of being displayed — while
every other `SystemMessage` text is appended to the message log (with the
scroll forced to follow). -/
theorem clear_sentinel_dispatch :
    (∀ a : App,
      applyEvent a (.systemMessage ("__clear__".toList)) = a.clear_messages
      ∧ (applyEvent a (.systemMessage ("__clear__".toList))).messages = []
      ∧ (applyEvent a (.systemMessage ("__clear__".toList))).scroll_offset = 0)
    ∧ (∀ (a : App) (t : Str), t ≠ ("__clear__".toList) →
      applyEvent a (.systemMessage t) = a.add_message (.system t)
      ∧ (applyEvent a (.systemMessage t)).messages
          = a.messages ++ [ChatMessage.system t]) := by
  constructor
  · intro a
    refine ⟨?_, ?_, ?_⟩ <;> simp [applyEvent, App.clear_messages]
  · intro a t h
    have h2 : ¬ (t = ("__clear__".toList)) := h
    refine ⟨?_, ?_⟩ <;> simp only [applyEvent] <;> rw [if_neg h2] <;> rfl

theorem clear_sentinel_dispatch_witness :
    applyEvent {} (.systemMessage ("hi".toList)) = App.add_message {} (.system ("hi".toList))
    ∧ (applyEvent {} (.systemMessage ("hi".toList))).messages
        = ({} : App).messages ++ [ChatMessage.system ("hi".toList)] :=
  clear_sentinel_dispatch.2 {} ("hi".toList) (by decide)

theorem contains_eq_mem (l : Str) (a : Char) : l.contains a = decide (a ∈ l) :=
  List.elem_eq_mem a l

theorem contains_false_bne (l : Str) (a : Char) (h : l.contains a = false) :
    ∀ c ∈ l, (c != a) = true := by
  rw [contains_eq_mem, decide_eq_false_iff_not] at h
  intro c hc
  simp only [bne_iff_ne, ne_eq]
  rintro rfl
  exact h hc

theorem contains_append_cons (w l : Str) (a : Char) :
    (w ++ a :: l).contains a = true := by
  rw [contains_eq_mem, decide_eq_true_eq]
  exact List.mem_append.mpr (Or.inr (List.mem_cons_self a l))

theorem splitOnceColon_append (pfx rest : Str) (hp : pfx.contains ':' = false) :
    splitOnceColon (pfx ++ ':' :: rest) = some (pfx, rest) := by
  have hall := contains_false_bne pfx ':' hp
  rw [splitOnceColon, if_pos (contains_append_cons pfx rest ':')]
  rw [takeWhile_append_of_all _ _ _ hall, dropWhile_append_of_all _ _ _ hall]
  rw [List.takeWhile_cons, List.dropWhile_cons]
  norm_num

theorem isPrefixOf_append_self (l r : Str) : l.isPrefixOf (l ++ r) = true := by
  induction l with
  | nil => simp [List.isPrefixOf]
  | cons c cs ih => simpa [List.isPrefixOf] using ih

/-- C6, counterexample: with explicit provider `a:b` and model `a:b:c`
the model string starts with the `a:b:` prefix, so the claim prescribes
stripping it, giving the pair `(a:b, c)`; the code instead drops only up
to the first colon of the model and yields `(a:b, b:c)`. -/
theorem provider_prefix_strip_counterexample :
    decide (resolveProviderModel (some ("a:b".toList)) (some ("a:b:c".toList)) =
      (("a:b".toList), ("c".toList))) = false := by rfl

/-- C6, amended: the resolution table holds with one correction in the
both-given case — when the model `m` contains a colon and starts with
`p:`, the resolved model is the part of `m` after its first colon, which
equals `m` with the `p:` prefix stripped whenever the provider name `p`
itself contains no colon; the remaining rows are as claimed: a recognized
prefix from the allow-list {anthropic, ollama, claude-cli} splits a bare
model string, an unrecognized or absent prefix leaves the whole string as
the model under the default provider `ollama`, a bare provider gets the
default model `sonnet` (anthropic, claude-cli) or `llama3.2:3b`
(otherwise), and no input at all resolves to `(ollama, llama3.2:3b)`. -/
theorem provider_model_resolution_amended :
    (∀ p m : Str, m.contains ':' = true → (p ++ [':']).isPrefixOf m = true →
      resolveProviderModel (some p) (some m)
        = (p, (m.dropWhile (fun c => c != ':')).drop 1))
    ∧ (∀ p rest : Str, p.contains ':' = false →
      resolveProviderModel (some p) (some (p ++ ':' :: rest)) = (p, rest))
    ∧ (∀ p m : Str, m.contains ':' = false →
      resolveProviderModel (some p) (some m) = (p, m))
    ∧ (∀ p m : Str, m.contains ':' = true → (p ++ [':']).isPrefixOf m = false →
      resolveProviderModel (some p) (some m) = (p, m))
    ∧ (∀ rest : Str, resolveProviderModel none (some (("anthropic".toList) ++ ':' :: rest))
        = (("anthropic".toList), rest))
    ∧ (∀ rest : Str, resolveProviderModel none (some (("ollama".toList) ++ ':' :: rest))
        = (("ollama".toList), rest))
    ∧ (∀ rest : Str, resolveProviderModel none (some (("claude-cli".toList) ++ ':' :: rest))
        = (("claude-cli".toList), rest))
    ∧ (∀ pfx rest : Str, pfx.contains ':' = false →
      pfx ≠ ("anthropic".toList) → pfx ≠ ("ollama".toList) →
      pfx ≠ ("claude-cli".toList) →
      resolveProviderModel none (some (pfx ++ ':' :: rest))
        = (("ollama".toList), pfx ++ ':' :: rest))
    ∧ (∀ m : Str, m.contains ':' = false →
      resolveProviderModel none (some m) = (("ollama".toList), m))
    ∧ (∀ p : Str, resolveProviderModel (some p) none
        = (p, if p = ("anthropic".toList) ∨ p = ("claude-cli".toList) then
                ("sonnet".toList)
              else ("llama3.2:3b".toList)))
    ∧ resolveProviderModel none none = (("ollama".toList), ("llama3.2:3b".toList)) := by
  refine ⟨?_, ?_, ?_, ?_, ?_, ?_, ?_, ?_, ?_, fun p => rfl, rfl⟩
  · intro p m hm hpf
    simp only [resolveProviderModel, splitOnceColon, if_pos hm, hpf, if_true]
  · intro p rest hp
    simp only [resolveProviderModel, splitOnceColon_append p rest hp]
    rw [show p ++ ':' :: rest = (p ++ [':']) ++ rest by simp]
    rw [isPrefixOf_append_self (p ++ [':']) rest, if_pos rfl]
  · intro p m hm
    simp only [resolveProviderModel, splitOnceColon, hm, Bool.false_eq_true, if_false]
  · intro p m hm hpf
    simp only [resolveProviderModel, splitOnceColon, if_pos hm, hpf,
      Bool.false_eq_true, if_false]
  · intro rest
    simp only [resolveProviderModel,
      splitOnceColon_append ("anthropic".toList) rest (by decide)]
    simp
  · intro rest
    simp only [resolveProviderModel,
      splitOnceColon_append ("ollama".toList) rest (by decide)]
    simp
  · intro rest
    simp only [resolveProviderModel,
      splitOnceColon_append ("claude-cli".toList) rest (by decide)]
    simp
  · intro pfx rest hp h1 h2 h3
    simp only [resolveProviderModel, splitOnceColon_append pfx rest hp]
    rw [if_neg (by tauto)]
  · intro m hm
    simp only [resolveProviderModel, splitOnceColon, hm, Bool.false_eq_true, if_false]

theorem provider_model_resolution_amended_witness :
    resolveProviderModel (some ("ollama".toList)) (some (("ollama".toList) ++ ':' :: ("phi3".toList)))
      = (("ollama".toList), ("phi3".toList))
    ∧ resolveProviderModel (some ("anthropic".toList)) (some ("sonnet".toList))
      = (("anthropic".toList), ("sonnet".toList))
    ∧ resolveProviderModel none (some (("mistral".toList) ++ ':' :: ("7b".toList)))
      = (("ollama".toList), ("mistral".toList) ++ ':' :: ("7b".toList)) :=
  ⟨provider_model_resolution_amended.2.1 ("ollama".toList) ("phi3".toList) (by decide),
   provider_model_resolution_amended.2.2.1 ("anthropic".toList) ("sonnet".toList) (by decide),
   provider_model_resolution_amended.2.2.2.2.2.2.2.1 ("mistral".toList) ("7b".toList)
     (by decide) (by decide) (by decide) (by decide)⟩

theorem toAgentEvent_not_sentinel (te : TelemetryEvent) :
    isSentinel (toAgentEvent te) = false := by
  cases te <;> rfl

theorem filter_sentinel_map (l : List TelemetryEvent) :
    (l.map toAgentEvent).filter isSentinel = [] := by
  induction l with
  | nil => rfl
  | cons te ts ih => simp [List.filter_cons, toAgentEvent_not_sentinel, ih]

theorem filter_sentinel_sysmap (l : List Str) :
    ((l.map (fun m => AgentEvent.systemMessage m)).filter isSentinel) = [] := by
  induction l with
  | nil => rfl
  | cons te ts ih => simp [List.filter_cons, isSentinel, ih]

/-- C3: for every line the agent loop receives — empty input, each
command outcome, successful and failed turns — the events it emits for
that turn contain exactly one sentinel, that sentinel is the last event
emitted, and it is `Quit` exactly for a line classified as Quit (`Done`
otherwise). -/
theorem sentinel_closes_every_turn (stats : SessionStats) (raw : Str)
    (turn : TurnOutcome) (compactMsgs : List Str) (shell : ShellOutcome) :
    ((stepInput stats raw turn compactMsgs shell).events.filter isSentinel
      = [if classifiedQuit raw then AgentEvent.quit else AgentEvent.done])
    ∧ ((stepInput stats raw turn compactMsgs shell).events.getLast?
      = some (if classifiedQuit raw then AgentEvent.quit else AgentEvent.done)) := by
  by_cases he : rustTrim raw = []
  · have hq : classifiedQuit raw = false := by simp [classifiedQuit, he]
    simp [stepInput, he, hq, isSentinel]
  · cases hc : process_command (rustTrim raw) with
    | Quit =>
      have hq : classifiedQuit raw = true := by simp [classifiedQuit, he, hc]
      simp [stepInput, he, hc, hq, isSentinel]
    | NotACommand =>
      have hq : classifiedQuit raw = false := by simp [classifiedQuit, hc]
      cases turn with
      | ok r =>
        simp only [stepInput, if_neg he, hc, hq, Bool.false_eq_true, if_false]
        split_ifs with hcond <;>
          simp [hq, List.filter_append, filter_sentinel_map, isSentinel,
            List.getLast?_append_cons, List.getLast?_concat]
      | err e =>
        simp [stepInput, he, hc, hq, isSentinel]
    | Continue =>
      have hq : classifiedQuit raw = false := by simp [classifiedQuit, hc]
      simp only [stepInput, if_neg he, hc, hq, Bool.false_eq_true, if_false]
      split_ifs with hcond <;> simp [isSentinel]
    | Clear =>
      have hq : classifiedQuit raw = false := by simp [classifiedQuit, hc]
      simp [stepInput, he, hc, hq, isSentinel]
    | SwitchModel m =>
      have hq : classifiedQuit raw = false := by simp [classifiedQuit, hc]
      simp [stepInput, he, hc, hq, isSentinel]
    | Compact =>
      have hq : classifiedQuit raw = false := by simp [classifiedQuit, hc]
      simp [stepInput, he, hc, hq, List.filter_append, filter_sentinel_sysmap,
        isSentinel, List.getLast?_concat]
    | Cost =>
      have hq : classifiedQuit raw = false := by simp [classifiedQuit, hc]
      simp [stepInput, he, hc, hq, isSentinel]
    | ShellCommand cmd =>
      have hq : classifiedQuit raw = false := by simp [classifiedQuit, hc]
      cases shell with
      | ok out errOut =>
        simp only [stepInput, if_neg he, hc, hq, Bool.false_eq_true, if_false]
        split_ifs <;> simp [isSentinel]
      | err e =>
        simp [stepInput, he, hc, hq, isSentinel]

theorem toAgentEvent_ne_system (te : TelemetryEvent) (s : Str) :
    toAgentEvent te ≠ AgentEvent.systemMessage s := by
  cases te <;> simp [toAgentEvent]

/-- C2: after a successful agent turn (input classified `NotACommand`),
the loop invokes history compaction and emits the auto-compaction notice
exactly when the cumulative prompt tokens exceed 160000 (80 percent of the
200000-token budget) and the cumulative turn count is at least 3; in
particular it never fires when the cumulative turn count is 1 or 2,
whatever the token count. -/
theorem auto_compaction_policy (stats : SessionStats) (raw : Str) (r : TurnResult)
    (compactMsgs : List Str) (shell : ShellOutcome)
    (hne : rustTrim raw ≠ [])
    (hcmd : process_command (rustTrim raw) = CommandResult.NotACommand) :
    ((stepInput stats raw (TurnOutcome.ok r) compactMsgs shell).autoCompacted = true ↔
      (stats.total_prompt_tokens + r.total_tokens > 160000 ∧
        stats.total_turns + r.turns ≥ 3))
    ∧ ((AgentEvent.systemMessage (autoCompactMsg
          ((stats.total_prompt_tokens + r.total_tokens) * 100 / 200000))
        ∈ (stepInput stats raw (TurnOutcome.ok r) compactMsgs shell).events) ↔
      (stats.total_prompt_tokens + r.total_tokens > 160000 ∧
        stats.total_turns + r.turns ≥ 3))
    ∧ ((stats.total_turns + r.turns = 1 ∨ stats.total_turns + r.turns = 2) →
      (stepInput stats raw (TurnOutcome.ok r) compactMsgs shell).autoCompacted
        = false) := by
  have hb : contextBudget * 80 / 100 = 160000 := by norm_num [contextBudget]
  simp only [stepInput, if_neg hne, hcmd, runTurnStatsUpdate, hb, contextBudget]
  split_ifs with hcond
  · refine ⟨iff_of_true rfl hcond, iff_of_true ?_ hcond, fun h12 => ?_⟩
    · simp
    · exfalso; rcases h12 with h | h <;> omega
  · refine ⟨iff_of_false (by simp) hcond, iff_of_false ?_ hcond, fun _ => rfl⟩
    intro hmem
    rcases List.mem_append.mp hmem with hm | hm
    · rcases List.mem_append.mp hm with hm2 | hm2
      · rcases List.mem_map.mp hm2 with ⟨te, -, hte⟩
        exact toAgentEvent_ne_system te _ hte
      · simp at hm2
    · simp at hm

theorem auto_compaction_policy_witness :
    ((stepInput ⟨170000, 0, 4⟩ ("hi".toList) (TurnOutcome.ok ⟨[], 1, 10⟩) []
        (ShellOutcome.err [])).autoCompacted = true ↔
      (170000 + 10 > 160000 ∧ 4 + 1 ≥ 3)) :=
  (auto_compaction_policy ⟨170000, 0, 4⟩ ("hi".toList) ⟨[], 1, 10⟩ []
    (ShellOutcome.err []) (by decide) (by decide)).1

@[simp] theorem clear_messages_busy (a : App) :
    a.clear_messages.agent_busy = a.agent_busy := rfl

@[simp] theorem add_message_busy (a : App) (m : ChatMessage) :
    (a.add_message m).agent_busy = a.agent_busy := rfl

@[simp] theorem add_recent_file_busy (a : App) (p : Str) :
    (a.add_recent_file p).agent_busy = a.agent_busy := rfl

@[simp] theorem add_recent_tool_busy (a : App) (nm : Str) (s : Bool) :
    (a.add_recent_tool nm s).agent_busy = a.agent_busy := rfl

@[simp] theorem insert_char_busy (a : App) (c : Char) :
    (a.insert_char c).agent_busy = a.agent_busy := rfl

@[simp] theorem delete_char_before_busy (a : App) :
    a.delete_char_before.agent_busy = a.agent_busy := by
  unfold App.delete_char_before; split_ifs <;> rfl

@[simp] theorem delete_char_after_busy (a : App) :
    a.delete_char_after.agent_busy = a.agent_busy := by
  unfold App.delete_char_after; split_ifs <;> rfl

@[simp] theorem move_cursor_left_busy (a : App) :
    a.move_cursor_left.agent_busy = a.agent_busy := by
  unfold App.move_cursor_left; split_ifs <;> rfl

@[simp] theorem move_cursor_right_busy (a : App) :
    a.move_cursor_right.agent_busy = a.agent_busy := by
  unfold App.move_cursor_right
  split_ifs
  · cases dropBytes a.input a.cursor_pos <;> rfl
  · rfl

@[simp] theorem move_cursor_home_busy (a : App) :
    a.move_cursor_home.agent_busy = a.agent_busy := rfl

@[simp] theorem move_cursor_end_busy (a : App) :
    a.move_cursor_end.agent_busy = a.agent_busy := rfl

@[simp] theorem history_up_busy (a : App) :
    a.history_up.agent_busy = a.agent_busy := by
  unfold App.history_up
  split_ifs
  · rfl
  · cases a.history_index with
    | none => rfl
    | some i => cases i <;> rfl

@[simp] theorem history_down_busy (a : App) :
    a.history_down.agent_busy = a.agent_busy := by
  unfold App.history_down
  cases a.history_index with
  | none => rfl
  | some i => dsimp only; split_ifs <;> rfl

@[simp] theorem submit_input_busy (a : App) :
    (a.submit_input).2.agent_busy = a.agent_busy := by
  unfold App.submit_input
  dsimp only
  split_ifs <;> rfl

/-- C4: while `agent_busy` holds, an Enter key event returns with the
state unchanged and nothing sent on the inbound channel; a submission
reaches the channel only when `agent_busy` is false and sets it true at
the moment of dispatch; no key event ever clears a set busy flag, and
among channel events only `Done` clears it (every other event leaves it
unchanged). -/
theorem busy_gate :
    (∀ (a : App) (mods : KeyMods), a.agent_busy = true →
      handleKey a mods .enter = (a, none))
    ∧ (∀ (a : App) (mods : KeyMods) (code : KeyCode) (a2 : App) (t : Str),
      handleKey a mods code = (a2, some t) →
      a.agent_busy = false ∧ a2.agent_busy = true)
    ∧ (∀ (a : App) (mods : KeyMods) (code : KeyCode),
      a.agent_busy = true → ((handleKey a mods code).1).agent_busy = true)
    ∧ (∀ (a : App) (e : AgentEvent), e ≠ AgentEvent.done →
      (applyEvent a e).agent_busy = a.agent_busy)
    ∧ (∀ a : App, (applyEvent a AgentEvent.done).agent_busy = false) := by
  refine ⟨?_, ?_, ?_, ?_, fun a => rfl⟩
  · intro a mods hb
    cases mods <;> simp [handleKey, hb]
  · intro a mods code a2 t h
    cases mods <;> cases code <;> simp only [handleKey] at h <;>
      first
      | exact absurd h (by simp [Prod.mk.injEq])
      | (by_cases hb : a.agent_busy = true
         · rw [if_pos hb] at h
           exact absurd h (by simp [Prod.mk.injEq])
         · rw [if_neg hb] at h
           rcases hs : a.submit_input with ⟨o, a3⟩
           rw [hs] at h
           cases o with
           | none => exact absurd h (by simp [Prod.mk.injEq])
           | some text =>
             simp only [Prod.mk.injEq] at h
             exact ⟨by simpa using hb, by rw [← h.1]⟩)
      | (split_ifs at h <;> exact absurd h (by simp [Prod.mk.injEq]))
  · intro a mods code hb
    cases mods <;> cases code <;>
      simp [handleKey, hb] <;>
      split_ifs <;> simp [hb]
  · intro a e he
    cases e with
    | toolCallStarted nm args =>
      simp only [applyEvent]
      split_ifs
      · cases extract_file_path ((a.add_message (.toolCall nm args)).messages.getLast?) <;>
          simp
      · simp
    | systemMessage text =>
      simp only [applyEvent]
      split_ifs <;> simp
    | done => exact absurd rfl he
    | narration t => simp [applyEvent]
    | toolCallCompleted nm s d => simp [applyEvent]
    | llmCall m p c d => simp [applyEvent]
    | stageStarted i k => simp [applyEvent]
    | stageCompleted i d s => simp [applyEvent]
    | response t => simp [applyEvent]
    | tokenUpdate tot turns cost => simp [applyEvent]
    | error t => simp [applyEvent]
    | quit => simp [applyEvent]

theorem busy_gate_witness :
    handleKey { agent_busy := true } KeyMods.noMods KeyCode.enter
      = ({ agent_busy := true }, none)
    ∧ (applyEvent { agent_busy := true } (AgentEvent.narration ("x".toList))).agent_busy
      = ({ agent_busy := true } : App).agent_busy :=
  ⟨busy_gate.1 { agent_busy := true } KeyMods.noMods rfl,
   busy_gate.2.2.2.1 { agent_busy := true } (AgentEvent.narration ("x".toList)) (by decide)⟩

theorem utf8Len_pos (c : Char) : 0 < utf8Len c := by
  unfold utf8Len; split_ifs <;> norm_num

theorem byteLen_append (l r : Str) : byteLen (l ++ r) = byteLen l + byteLen r := by
  induction l with
  | nil => simp [byteLen]
  | cons c cs ih => rw [List.cons_append, byteLen, byteLen, ih]; omega

/-- Characterization of UTF-8 boundaries: the byte offsets of `s` that
are boundaries are exactly the byte lengths of its character prefixes. -/
theorem isBoundary_iff (s : Str) (p : Nat) :
    isBoundary s p = true ↔ ∃ k, k ≤ s.length ∧ p = byteLen (s.take k) := by
  induction s generalizing p with
  | nil =>
    simp only [isBoundary, List.take_nil, List.length_nil, Nat.le_zero,
      decide_eq_true_eq, byteLen]
    constructor
    · rintro rfl; exact ⟨0, rfl, rfl⟩
    · rintro ⟨k, -, rfl⟩; rfl
  | cons c cs ih =>
    by_cases hp : p = 0
    · subst hp
      rw [isBoundary, if_pos rfl]
      exact iff_of_true rfl ⟨0, by simp, by simp [byteLen]⟩
    · rw [isBoundary, if_neg hp]
      by_cases hlt : p < utf8Len c
      · rw [if_pos hlt]
        constructor
        · intro hfalse; cases hfalse
        · rintro ⟨k, hk, hpk⟩
          exfalso
          cases k with
          | zero => exact hp (by simpa [byteLen] using hpk)
          | succ j =>
            rw [List.take_succ_cons, byteLen] at hpk
            omega
      · rw [if_neg hlt, ih]
        constructor
        · rintro ⟨j, hj, hpj⟩
          refine ⟨j + 1, by simpa using hj, ?_⟩
          rw [List.take_succ_cons, byteLen]
          omega
        · rintro ⟨k, hk, hpk⟩
          cases k with
          | zero => exact absurd (by simpa [byteLen] using hpk) hp
          | succ j =>
            rw [List.take_succ_cons, byteLen] at hpk
            exact ⟨j, by simpa using hk, by omega⟩

theorem boundary_zero (s : Str) : isBoundary s 0 = true :=
  (isBoundary_iff s 0).mpr ⟨0, Nat.zero_le _, by simp [byteLen]⟩

theorem boundary_end (s : Str) : isBoundary s (byteLen s) = true :=
  (isBoundary_iff s (byteLen s)).mpr ⟨s.length, Nat.le_refl _, by rw [List.take_length]⟩

theorem takeBytes_byteLen_take (s : Str) (k : Nat) (hk : k ≤ s.length) :
    takeBytes s (byteLen (s.take k)) = s.take k := by
  induction s generalizing k with
  | nil => simp [takeBytes, byteLen]
  | cons c cs ih =>
    cases k with
    | zero => simp [takeBytes, byteLen]
    | succ j =>
      rw [List.take_succ_cons, byteLen, takeBytes]
      have hpos := utf8Len_pos c
      rw [if_neg (by omega)]
      rw [show utf8Len c + byteLen (cs.take j) - utf8Len c = byteLen (cs.take j) by omega]
      rw [ih j (by simpa using hk)]

theorem dropBytes_byteLen_take (s : Str) (k : Nat) (hk : k ≤ s.length) :
    dropBytes s (byteLen (s.take k)) = s.drop k := by
  induction s generalizing k with
  | nil => simp [dropBytes, byteLen]
  | cons c cs ih =>
    cases k with
    | zero => simp [dropBytes, byteLen]
    | succ j =>
      rw [List.take_succ_cons, byteLen, dropBytes]
      have hpos := utf8Len_pos c
      rw [if_neg (by omega)]
      rw [show utf8Len c + byteLen (cs.take j) - utf8Len c = byteLen (cs.take j) by omega]
      rw [ih j (by simpa using hk), List.drop_succ_cons]

theorem byteLen_drop_pos (s : Str) (k : Nat) (hk : k < s.length) :
    0 < byteLen (s.drop k) := by
  induction s generalizing k with
  | nil => simp at hk
  | cons c cs ih =>
    cases k with
    | zero =>
      rw [List.drop_zero, byteLen]
      have := utf8Len_pos c
      omega
    | succ j => rw [List.drop_succ_cons]; exact ih j (by simpa using hk)

theorem byteLen_take_lt (s : Str) (k : Nat) (hk : k < s.length) :
    byteLen (s.take k) < byteLen s := by
  conv_rhs => rw [← List.take_append_drop k s]
  rw [byteLen_append]
  have := byteLen_drop_pos s k hk
  omega

theorem take_append_self (A B : Str) : (A ++ B).take A.length = A := by
  rw [List.take_append_of_le_length (Nat.le_refl _), List.take_length]

theorem applyEdit_cursorOk (a : App) (h : CursorOk a) (op : EditOp) :
    CursorOk (applyEdit a op) := by
  obtain ⟨k, hk, hp⟩ := (isBoundary_iff a.input a.cursor_pos).mp h
  cases op with
  | insertChar c =>
    show isBoundary
      (takeBytes a.input a.cursor_pos ++ c :: dropBytes a.input a.cursor_pos)
      (a.cursor_pos + utf8Len c) = true
    rw [hp, takeBytes_byteLen_take _ _ hk, dropBytes_byteLen_take _ _ hk]
    apply (isBoundary_iff _ _).mpr
    have hlen : (a.input.take k).length = k := by rw [List.length_take]; omega
    refine ⟨k + 1, ?_, ?_⟩
    · rw [List.length_append, List.length_cons, hlen]; omega
    · have h1 : List.take 1 (c :: a.input.drop k) = [c] := rfl
      rw [show k + 1 = (a.input.take k).length + 1 by omega, List.take_append, h1,
        byteLen_append, byteLen, byteLen]
      omega
  | deleteBefore =>
    show CursorOk a.delete_char_before
    unfold App.delete_char_before
    split_ifs with hpos
    · have hkpos : k ≠ 0 := by
        rintro rfl
        simp [byteLen] at hp
        omega
      obtain ⟨j, rfl⟩ := Nat.exists_eq_succ_of_ne_zero hkpos
      have hjlt : j < a.input.length := by omega
      show isBoundary
        ((takeBytes a.input a.cursor_pos).dropLast ++ dropBytes a.input a.cursor_pos)
        (byteLen (takeBytes a.input a.cursor_pos).dropLast) = true
      rw [hp, takeBytes_byteLen_take _ _ hk, dropBytes_byteLen_take _ _ hk]
      have hdl : (a.input.take (j + 1)).dropLast = a.input.take j := by
        rw [List.take_succ, List.getElem?_eq_getElem hjlt, Option.toList_some]
        exact List.dropLast_concat
      rw [hdl]
      apply (isBoundary_iff _ _).mpr
      have hlen : (a.input.take j).length = j := by rw [List.length_take]; omega
      have htake : (a.input.take j ++ a.input.drop (j + 1)).take j = a.input.take j := by
        rw [List.take_append_of_le_length (by simp [hlen]), List.take_take, Nat.min_self]
      refine ⟨j, ?_, ?_⟩
      · rw [List.length_append, hlen]; omega
      · rw [htake]
    · exact h
  | deleteAfter =>
    show CursorOk a.delete_char_after
    unfold App.delete_char_after
    split_ifs with hlt
    · have hklt : k < a.input.length := by
        rcases Nat.lt_or_ge k a.input.length with h' | h'
        · exact h'
        · exfalso
          rw [List.take_of_length_le h'] at hp
          omega
      show isBoundary
        (takeBytes a.input a.cursor_pos ++ (dropBytes a.input a.cursor_pos).tail)
        a.cursor_pos = true
      rw [hp, takeBytes_byteLen_take _ _ hk, dropBytes_byteLen_take _ _ hk,
        List.drop_eq_getElem_cons hklt, List.tail_cons]
      apply (isBoundary_iff _ _).mpr
      have hlen : (a.input.take k).length = k := by rw [List.length_take]; omega
      have htake : (a.input.take k ++ a.input.drop (k + 1)).take k = a.input.take k := by
        rw [List.take_append_of_le_length (by simp [hlen]), List.take_take, Nat.min_self]
      refine ⟨k, ?_, ?_⟩
      · rw [List.length_append, hlen]; omega
      · rw [htake]
    · exact h
  | moveLeft =>
    show CursorOk a.move_cursor_left
    unfold App.move_cursor_left
    split_ifs with hpos
    · have hkpos : k ≠ 0 := by
        rintro rfl
        simp [byteLen] at hp
        omega
      obtain ⟨j, rfl⟩ := Nat.exists_eq_succ_of_ne_zero hkpos
      have hjlt : j < a.input.length := by omega
      show isBoundary a.input (byteLen (takeBytes a.input a.cursor_pos).dropLast) = true
      rw [hp, takeBytes_byteLen_take _ _ hk]
      have hdl : (a.input.take (j + 1)).dropLast = a.input.take j := by
        rw [List.take_succ, List.getElem?_eq_getElem hjlt, Option.toList_some]
        exact List.dropLast_concat
      rw [hdl]
      exact (isBoundary_iff _ _).mpr ⟨j, by omega, rfl⟩
    · exact h
  | moveRight =>
    show CursorOk a.move_cursor_right
    unfold App.move_cursor_right
    split_ifs with hlt
    · have hklt : k < a.input.length := by
        rcases Nat.lt_or_ge k a.input.length with h' | h'
        · exact h'
        · exfalso
          rw [List.take_of_length_le h'] at hp
          omega
      have hd : dropBytes a.input a.cursor_pos
          = a.input[k] :: a.input.drop (k + 1) := by
        rw [hp, dropBytes_byteLen_take _ _ hk, List.drop_eq_getElem_cons hklt]
      rw [hd]
      show isBoundary a.input (if a.input.drop (k + 1) = [] then byteLen a.input
        else a.cursor_pos + utf8Len (a.input[k])) = true
      split_ifs with hrest
      · exact boundary_end a.input
      · rw [hp]
        apply (isBoundary_iff _ _).mpr
        refine ⟨k + 1, by omega, ?_⟩
        rw [List.take_succ, List.getElem?_eq_getElem hklt, Option.toList_some,
          byteLen_append, byteLen, byteLen]
        omega
    · exact h
  | moveHome => exact boundary_zero a.input
  | moveEnd => exact boundary_end a.input
  | submit =>
    show CursorOk (a.submit_input).2
    unfold App.submit_input
    dsimp only
    split_ifs
    · exact h
    · exact boundary_zero []
  | histUp =>
    show CursorOk a.history_up
    unfold App.history_up
    split_ifs
    · exact h
    · cases a.history_index with
      | none => exact boundary_end _
      | some i =>
        cases i with
        | zero => exact h
        | succ j => exact boundary_end _
  | histDown =>
    show CursorOk a.history_down
    unfold App.history_down
    cases a.history_index with
    | none => exact h
    | some i =>
      dsimp only
      split_ifs
      · exact boundary_zero []
      · exact boundary_end _

/-- C7: starting from any state whose cursor lies on a character boundary
of the input (`0 ≤ cursor_pos ≤ byteLen input`), every editing and
history operation preserves that property, so after any sequence of such
operations the cursor is still a valid UTF-8 boundary of the input. -/
theorem cursor_boundary_invariant (a : App) (h : CursorOk a) (ops : List EditOp) :
    CursorOk (applyEdits ops a) := by
  induction ops generalizing a with
  | nil => exact h
  | cons op ops ih => exact ih (applyEdit a op) (applyEdit_cursorOk a h op)

theorem cursor_boundary_invariant_witness :
    CursorOk (applyEdits
      [EditOp.insertChar 'é', EditOp.insertChar 'x', EditOp.moveLeft,
       EditOp.deleteBefore, EditOp.insertChar '語', EditOp.moveRight,
       EditOp.moveHome, EditOp.deleteAfter, EditOp.moveEnd, EditOp.submit,
       EditOp.histUp, EditOp.histDown]
      (App.new ("a".toList) ("m".toList) ("w".toList))) :=
  cursor_boundary_invariant (App.new ("a".toList) ("m".toList) ("w".toList)) rfl
    [EditOp.insertChar 'é', EditOp.insertChar 'x', EditOp.moveLeft,
     EditOp.deleteBefore, EditOp.insertChar '語', EditOp.moveRight,
     EditOp.moveHome, EditOp.deleteAfter, EditOp.moveEnd, EditOp.submit,
     EditOp.histUp, EditOp.histDown]

example : process_command ("/quit".toList) = .Quit := by decide
example : process_command ("  /exit now  ".toList) = .Quit := by decide
example : process_command ("/model".toList) = .Continue := by decide
example : process_command ("/model x".toList) = .SwitchModel ("x".toList) := by decide
example : process_command ("/cost".toList) = .Continue := by decide
example : process_command ("hello".toList) = .NotACommand := by decide
example : process_command ("! ".toList) = .Continue := by decide
example : process_command ("!ls -la".toList) = .ShellCommand ("ls -la".toList) := by decide
example : process_command ("/quitx".toList) = .Continue := by decide

example :
    resolveProviderModel (some ("anthropic".toList)) (some ("anthropic:claude".toList)) =
      (("anthropic".toList), ("claude".toList)) := by decide
example :
    resolveProviderModel none (some ("ollama:phi3".toList)) =
      (("ollama".toList), ("phi3".toList)) := by decide
example :
    resolveProviderModel none (some ("llama3.2:3b".toList)) =
      (("ollama".toList), ("llama3.2:3b".toList)) := by decide
example :
    resolveProviderModel none none = (("ollama".toList), ("llama3.2:3b".toList)) := by decide
example :
    resolveProviderModel (some ("a:b".toList)) (some ("a:b:c".toList)) =
      (("a:b".toList), ("b:c".toList)) := by decide
